import Mathlib

/-!
Shallow embedding of `src/nsid.rs` (NSID validation and parsing).

Byte slices and UTF-8 strings are modelled as `List Nat` of byte values.
The crate-external segment predicates (`is_valid_tld`,
`is_valid_domain_segment`, `is_valid_nsid_name`) are parameters bundled in a
`SegmentGrammar`; the crate-external constants and error type are modelled
from the spec where concrete values are needed.
-/

deriving instance DecidableEq for Except

namespace Neophron

/-- Source: `const MAX_LEN: usize = 317` from `nsid.rs`. -/
def MAX_LEN : Nat := 317

/-- Source: `const MAX_AUTHORITY_LEN: usize = 253` from `nsid.rs`. -/
def MAX_AUTHORITY_LEN : Nat := 253

/-- Source: `const MIN_SEGMENTS: usize = 3` from `nsid.rs`. -/
def MIN_SEGMENTS : Nat := 3

/-- Modelled from the spec: the crate-level error type `ParseError` is not
under `src/`; per the spec there are exactly two externally visible error
kinds, one for malformed identifiers (`ParseError::nsid()`) and one for
malformed fragments (`ParseError::nsid_fragment()`). -/
inductive ParseError where
  | nsid : ParseError
  | nsid_fragment : ParseError
deriving DecidableEq, Repr

/-- Modelled from the spec: the inclusive lower bound of the crate-level
`SEGMENT_LEN_RANGE` constant (not under `src/`). The spec requires an empty
fragment name to be rejected, so the minimum is 1. -/
def SEGMENT_LEN_MIN : Nat := 1

/-- Modelled from the spec: the inclusive upper bound of the crate-level
`SEGMENT_LEN_RANGE` constant (not under `src/`). The spec gives no numeric
maximum; 63 (the usual DNS label bound) is used, consistent with every
example the spec accepts. -/
def SEGMENT_LEN_MAX : Nat := 63

/-- The three crate-external segment predicates consumed by `validate_nsid`
(`is_valid_tld`, `is_valid_domain_segment`, `is_valid_nsid_name`), each a
pure predicate on byte slices. -/
structure SegmentGrammar where
  is_valid_tld : List Nat → Bool
  is_valid_domain_segment : List Nat → Bool
  is_valid_nsid_name : List Nat → Bool

/-- The spec's contract on the external predicates: each must reject the
empty byte slice. -/
def SegmentGrammar.RejectsEmpty (G : SegmentGrammar) : Prop :=
  G.is_valid_tld [] = false ∧ G.is_valid_domain_segment [] = false ∧
    G.is_valid_nsid_name [] = false

/-- The spec's contract that non-ASCII bytes anywhere inside a segment are
rejected by the segment predicates: an accepted segment is all-ASCII. -/
def SegmentGrammar.AsciiOnly (G : SegmentGrammar) : Prop :=
  (∀ s, G.is_valid_tld s = true → s.all (fun b => b < 128) = true) ∧
    (∀ s, G.is_valid_domain_segment s = true → s.all (fun b => b < 128) = true) ∧
    (∀ s, G.is_valid_nsid_name s = true → s.all (fun b => b < 128) = true)

/-- The loop of `validate_nsid`: `rest` is the list of segments after the
TLD, `len` the running length and `num` the running segment count. The
peek-based lookahead becomes a match on whether `rest` has a successor
segment; on the last segment the authority-length bound `len <
MAX_AUTHORITY_LEN` is checked together with the name predicate. After the
loop, fewer than `MIN_SEGMENTS` segments is an error. -/
def validate_segments (G : SegmentGrammar) :
    List (List Nat) → Nat → Nat → Except ParseError Unit
  | [], _len, num =>
    if num < MIN_SEGMENTS then .error .nsid else .ok ()
  | seg :: rest, len, num =>
    let valid := match rest with
      | _ :: _ => G.is_valid_domain_segment seg
      | [] => decide (len < MAX_AUTHORITY_LEN) && G.is_valid_nsid_name seg
    if !valid then .error .nsid
    else validate_segments G rest (len + (1 + seg.length)) (num + 1)

/-- Source: `fn validate_nsid(bytes: &[u8]) -> Result<(), ParseError>`: length
bound, split on `b'.'` (byte 46), TLD predicate on the first segment, then
the peekable loop over the remaining segments. -/
def validate_nsid (G : SegmentGrammar) (bytes : List Nat) :
    Except ParseError Unit :=
  if bytes.length > MAX_LEN then .error .nsid
  else
    match bytes.splitOn 46 with
    | [] => .error .nsid
    | tld :: rest =>
      if !G.is_valid_tld tld then .error .nsid
      else validate_segments G rest tld.length 1

/-- Source: `pub struct Nsid(String)`. -/
structure Nsid where
  text : List Nat
deriving DecidableEq, Repr

/-- Source: `Nsid::as_str` / the `Display` impl: the stored text, unchanged. -/
def Nsid.as_str (n : Nsid) : List Nat := n.text

/-- Source: `Nsid::segments`: lazy split of the stored text on `.`. -/
def Nsid.segments (n : Nsid) : List (List Nat) := n.text.splitOn 46

/-- Source: `impl FromStr for Nsid`: validate the string's bytes, then wrap. -/
def Nsid.from_str (G : SegmentGrammar) (s : List Nat) :
    Except ParseError Nsid :=
  (validate_nsid G s).map fun _ => Nsid.mk s

/-- Source: `impl TryFrom<&[u8]> for Nsid`: validate the bytes, then wrap (the
source additionally runs `String::from_utf8(...).unwrap()` on the accepted
bytes; see the UTF-8 validity theorem). -/
def Nsid.try_from (G : SegmentGrammar) (bytes : List Nat) :
    Except ParseError Nsid :=
  (validate_nsid G bytes).map fun _ => Nsid.mk bytes

/-- Source: `u8::is_ascii_alphanumeric` on a byte value. -/
def isAsciiAlnumByte (b : Nat) : Bool :=
  (48 ≤ b && b ≤ 57) || (65 ≤ b && b ≤ 90) || (97 ≤ b && b ≤ 122)

/-- Source: `fn validate_fragment(bytes: &[u8])`: strip the leading `#` (byte 35),
check the remaining length against `SEGMENT_LEN_RANGE`, and require every
remaining byte ASCII alphanumeric. -/
def validate_fragment (bytes : List Nat) : Except ParseError Unit :=
  match bytes with
  | 35 :: rest =>
    if !(decide (SEGMENT_LEN_MIN ≤ rest.length) &&
        decide (rest.length ≤ SEGMENT_LEN_MAX)) then
      .error .nsid_fragment
    else if !rest.all isAsciiAlnumByte then .error .nsid_fragment
    else .ok ()
  | _ => .error .nsid_fragment

/-- Source: `pub struct Fragment(String)`. -/
structure Fragment where
  text : List Nat
deriving DecidableEq, Repr

/-- Source: `Fragment::as_str` / the `Display` impl: the stored text, unchanged. -/
def Fragment.as_str (f : Fragment) : List Nat := f.text

/-- Source: `impl FromStr for Fragment`. -/
def Fragment.from_str (s : List Nat) : Except ParseError Fragment :=
  (validate_fragment s).map fun _ => Fragment.mk s

/-- Source: `pub struct FullReference { text: String, frag_start: usize }`. -/
structure FullReference where
  text : List Nat
  frag_start : Nat
deriving DecidableEq, Repr

/-- Source: `FullReference::clone_nsid`: an owned `Nsid` of `text[..frag_start]`. -/
def FullReference.clone_nsid (r : FullReference) : Nsid :=
  Nsid.mk (r.text.take r.frag_start)

/-- Source: `FullReference::has_fragment`: `frag_start < text.len()`. -/
def FullReference.has_fragment (r : FullReference) : Bool :=
  r.frag_start < r.text.length

/-- Source: `FullReference::clone_fragment`: an owned `Fragment` of
`text[frag_start..]` when a fragment is present. -/
def FullReference.clone_fragment (r : FullReference) : Option Fragment :=
  if r.has_fragment then some (Fragment.mk (r.text.drop r.frag_start)) else none

/-- Source: `FullReference::fragment_name`: `text[frag_start + 1..]` when a
fragment is present. -/
def FullReference.fragment_name (r : FullReference) : Option (List Nat) :=
  if r.has_fragment then some (r.text.drop (r.frag_start + 1)) else none

/-- Source: `impl From<Nsid> for FullReference`: the whole text, split offset at
the end. -/
def FullReference.fromNsid (n : Nsid) : FullReference :=
  FullReference.mk n.text n.text.length

/-- Source: `impl FromStr for FullReference`: split at the first `#` (or the end),
validate the identifier portion, validate the fragment portion when
non-empty, store the whole string plus the offset. -/
def FullReference.from_str (G : SegmentGrammar) (s : List Nat) :
    Except ParseError FullReference :=
  let fs := s.findIdx (fun b => b == 35)
  let nsid_s := s.take fs
  let frag_s := s.drop fs
  match validate_nsid G nsid_s with
  | .error e => .error e
  | .ok _ =>
    if frag_s.isEmpty then .ok (FullReference.mk s fs)
    else
      match validate_fragment frag_s with
      | .error e => .error e
      | .ok _ => .ok (FullReference.mk s fs)

/-- The `Display` impl for `FullReference`: the stored text, unchanged. -/
def FullReference.display (r : FullReference) : List Nat := r.text

/-- The spec's invariant on a constructed `FullReference`: the split offset
is in bounds, the portion before it validates as an identifier, the portion
from it onward (when non-empty) validates as a fragment and begins with
`#`, and `frag_start = text.length` is the sole encoding of "no
fragment". -/
def FullReference.WellFormed (G : SegmentGrammar) (r : FullReference) : Prop :=
  r.frag_start ≤ r.text.length ∧
    validate_nsid G (r.text.take r.frag_start) = .ok () ∧
    (r.frag_start < r.text.length →
      validate_fragment (r.text.drop r.frag_start) = .ok () ∧
        (r.text.drop r.frag_start).head? = some 35) ∧
    (r.has_fragment = false ↔ r.frag_start = r.text.length)

/-- Source: `pub enum Reference { Full(FullReference), Relative(Fragment) }`. -/
inductive Reference where
  | Full : FullReference → Reference
  | Relative : Fragment → Reference
deriving DecidableEq, Repr

/-- Source: `impl FromStr for Reference`: dispatch on a leading `#`. -/
def Reference.from_str (G : SegmentGrammar) (s : List Nat) :
    Except ParseError Reference :=
  match s with
  | 35 :: _ => (Fragment.from_str s).map Reference.Relative
  | _ => (FullReference.from_str G s).map Reference.Full

/-- The `Display` impl for `Reference`: delegate to the variant. -/
def Reference.display : Reference → List Nat
  | .Full r => r.display
  | .Relative f => f.as_str

/-- Total byte count of a UTF-8 sequence led by byte `b` (RFC 3629 lead
ranges: `0x00-0x7F` single, `0xC2-0xDF` two bytes, `0xE0-0xEF` three,
`0xF0-0xF4` four); 0 for an invalid lead byte (`0x80-0xC1`, `0xF5-`). -/
def utf8SeqLen (b : Nat) : Nat :=
  if b < 128 then 1
  else if 194 ≤ b && b ≤ 223 then 2
  else if 224 ≤ b && b ≤ 239 then 3
  else if 240 ≤ b && b ≤ 244 then 4
  else 0

/-- Lower bound of the first continuation byte after lead `b`
(`0xA0` after `0xE0`, `0x90` after `0xF0`, else `0x80`): rules out
overlong encodings. -/
def utf8ContLo (b : Nat) : Nat :=
  if b == 224 then 160 else if b == 240 then 144 else 128

/-- Upper bound of the first continuation byte after lead `b`
(`0x9F` after `0xED` excluding surrogates, `0x8F` after `0xF4` capping at
`U+10FFFF`, else `0xBF`). -/
def utf8ContHi (b : Nat) : Nat :=
  if b == 237 then 159 else if b == 244 then 143 else 191

/-- Checks `n` continuation bytes: the first within `[lo, hi]`, the rest
within `[0x80, 0xBF]`. -/
def utf8ContOk (lo hi : Nat) : Nat → List Nat → Bool
  | 0, _ => true
  | _ + 1, [] => false
  | n + 1, c :: r => (lo ≤ c && c ≤ hi) && utf8ContOk 128 191 n r

/-- Fuelled worker for `utf8Valid`; `fuel` bounds the number of decoded
sequences (one byte is consumed per sequence at minimum, so a fuel of the
list's length is always enough). -/
def utf8ValidAux : Nat → List Nat → Bool
  | _, [] => true
  | 0, _ :: _ => false
  | fuel + 1, b :: rest =>
    if b < 128 then utf8ValidAux fuel rest
    else
      let k := utf8SeqLen b - 1
      if k == 0 then false
      else
        utf8ContOk (utf8ContLo b) (utf8ContHi b) k (rest.take k) &&
          utf8ValidAux fuel (rest.drop k)

/-- Well-formedness of a byte sequence as UTF-8 (RFC 3629: correct
continuation counts and ranges, no overlong forms, no surrogates, max
`U+10FFFF`). `String::from_utf8` succeeds exactly on such sequences. -/
def utf8Valid (l : List Nat) : Bool := utf8ValidAux l.length l

/-- Modelled from the spec: a concrete instance of the crate-external
segment predicates (not under `src/`), used to evaluate examples. Each
segment must be non-empty, at most `SEGMENT_LEN_MAX` long, and ASCII;
domain segments (and the TLD) allow alphanumerics and hyphens (`a-0`,
`b-1`, `8` are valid per the spec's corpus), name segments allow
alphanumerics. -/
def specGrammar : SegmentGrammar where
  is_valid_tld s :=
    decide (SEGMENT_LEN_MIN ≤ s.length) && decide (s.length ≤ SEGMENT_LEN_MAX) &&
      s.all (fun b => isAsciiAlnumByte b || b == 45)
  is_valid_domain_segment s :=
    decide (SEGMENT_LEN_MIN ≤ s.length) && decide (s.length ≤ SEGMENT_LEN_MAX) &&
      s.all (fun b => isAsciiAlnumByte b || b == 45)
  is_valid_nsid_name s :=
    decide (SEGMENT_LEN_MIN ≤ s.length) && decide (s.length ≤ SEGMENT_LEN_MAX) &&
      s.all isAsciiAlnumByte

/-- A maximally permissive grammar satisfying the spec's stated contract on
the external predicates (reject empty input): used to exhibit boundary
inputs whose acceptance depends only on `validate_nsid`'s own checks. -/
def permissiveGrammar : SegmentGrammar where
  is_valid_tld s := !s.isEmpty
  is_valid_domain_segment s := !s.isEmpty
  is_valid_nsid_name s := !s.isEmpty

/-- The bytes of `"com.example.foo"`. -/
def comExampleFoo : List Nat :=
  [99, 111, 109, 46, 101, 120, 97, 109, 112, 108, 101, 46, 102, 111, 111]

/-- The bytes of `"com.example.foo#bar"`. -/
def comExampleFooBar : List Nat := comExampleFoo ++ [35, 98, 97, 114]

theorem validate_segments_nil (G : SegmentGrammar) (len num : Nat) :
    validate_segments G [] len num =
      if num < MIN_SEGMENTS then .error .nsid else .ok () := rfl

theorem validate_segments_single (G : SegmentGrammar) (seg : List Nat)
    (len num : Nat) :
    validate_segments G [seg] len num =
      if !(decide (len < MAX_AUTHORITY_LEN) && G.is_valid_nsid_name seg) then
        .error .nsid
      else validate_segments G [] (len + (1 + seg.length)) (num + 1) := rfl

theorem validate_segments_cons_of_ne (G : SegmentGrammar) (seg : List Nat)
    (rest : List (List Nat)) (len num : Nat) (h : rest ≠ []) :
    validate_segments G (seg :: rest) len num =
      if !G.is_valid_domain_segment seg then .error .nsid
      else validate_segments G rest (len + (1 + seg.length)) (num + 1) := by
  cases rest with
  | nil => exact absurd rfl h
  | cons a t => rfl

theorem validate_segments_last_spec (G : SegmentGrammar) (lastSeg : List Nat)
    (hlast : G.is_valid_nsid_name lastSeg = true) :
    ∀ (mids : List (List Nat)) (len num : Nat),
      (∀ s ∈ mids, G.is_valid_domain_segment s = true) →
      validate_segments G (mids ++ [lastSeg]) len num =
        if len + (mids.map fun s => 1 + s.length).sum < MAX_AUTHORITY_LEN then
          (if num + mids.length + 1 < MIN_SEGMENTS then .error .nsid else .ok ())
        else .error .nsid := by
  intro mids
  induction mids with
  | nil =>
    intro len num _
    rw [List.nil_append, validate_segments_single, validate_segments_nil]
    simp only [hlast, Bool.and_true, List.map_nil, List.sum_nil,
      List.length_nil, Nat.add_zero]
    by_cases hl : len < MAX_AUTHORITY_LEN <;> simp [hl]
  | cons m mids ih =>
    intro len num h
    have hm : G.is_valid_domain_segment m = true := h m (by simp)
    rw [List.cons_append,
      validate_segments_cons_of_ne G m (mids ++ [lastSeg]) len num (by simp),
      ih (len + (1 + m.length)) (num + 1) fun s hs => h s (by simp [hs])]
    simp only [hm, Bool.not_true, Bool.false_eq_true, if_false,
      List.map_cons, List.sum_cons, List.length_cons]
    split_ifs <;> first | rfl | (exfalso; omega)

theorem validate_segments_ok_or_err (G : SegmentGrammar) :
    ∀ (rest : List (List Nat)) (len num : Nat),
      validate_segments G rest len num = .ok () ∨
        validate_segments G rest len num = .error .nsid := by
  intro rest
  induction rest with
  | nil =>
    intro len num
    rw [validate_segments_nil]
    split <;> simp
  | cons seg rest ih =>
    intro len num
    cases rest with
    | nil =>
      rw [validate_segments_single]
      split
      · simp
      · exact ih _ _
    | cons b t =>
      rw [validate_segments_cons_of_ne G seg (b :: t) len num (by simp)]
      split
      · simp
      · exact ih _ _

theorem validate_segments_ok_count (G : SegmentGrammar) :
    ∀ (rest : List (List Nat)) (len num : Nat),
      validate_segments G rest len num = .ok () →
        MIN_SEGMENTS ≤ num + rest.length := by
  intro rest
  induction rest with
  | nil =>
    intro len num h
    rw [validate_segments_nil] at h
    split at h
    · exact absurd h (by simp)
    · simpa using by omega
  | cons seg rest ih =>
    intro len num h
    cases rest with
    | nil =>
      rw [validate_segments_single] at h
      split at h
      · exact absurd h (by simp)
      · have := ih _ _ h
        simp [MIN_SEGMENTS] at this ⊢
        omega
    | cons b t =>
      rw [validate_segments_cons_of_ne G seg (b :: t) len num (by simp)] at h
      split at h
      · exact absurd h (by simp)
      · have := ih _ _ h
        simp [MIN_SEGMENTS] at this ⊢
        omega

theorem validate_segments_ok_preds (G : SegmentGrammar) :
    ∀ (rest : List (List Nat)) (len num : Nat),
      validate_segments G rest len num = .ok () →
        ∀ s ∈ rest, G.is_valid_domain_segment s = true ∨
          G.is_valid_nsid_name s = true := by
  intro rest
  induction rest with
  | nil => intro len num _ s hs; exact absurd hs (by simp)
  | cons seg rest ih =>
    intro len num h s hs
    cases rest with
    | nil =>
      rw [validate_segments_single] at h
      rcases hv : (decide (len < MAX_AUTHORITY_LEN) && G.is_valid_nsid_name seg) with _ | _
      · rw [hv] at h; exact absurd h (by simp)
      · have hname : G.is_valid_nsid_name seg = true :=
          (Bool.and_eq_true _ _ |>.mp hv).2
        rcases List.mem_singleton.mp hs with rfl
        exact Or.inr hname
    | cons b t =>
      rw [validate_segments_cons_of_ne G seg (b :: t) len num (by simp)] at h
      rcases hv : G.is_valid_domain_segment seg with _ | _
      · rw [hv] at h; exact absurd h (by simp)
      · rcases List.mem_cons.mp hs with rfl | hs'
        · exact Or.inl hv
        · rw [hv] at h
          simp only [Bool.not_true, Bool.false_eq_true, if_false] at h
          exact ih _ _ h s hs'

theorem validate_nsid_ok_or_err (G : SegmentGrammar) (b : List Nat) :
    validate_nsid G b = .ok () ∨ validate_nsid G b = .error .nsid := by
  unfold validate_nsid
  split
  · exact Or.inr rfl
  · split
    · exact Or.inr rfl
    · split
      · exact Or.inr rfl
      · exact validate_segments_ok_or_err G _ _ _

theorem validate_nsid_ok_pieces (G : SegmentGrammar) (b : List Nat)
    (h : validate_nsid G b = .ok ()) :
    ∃ tld rest, b.splitOn 46 = tld :: rest ∧ G.is_valid_tld tld = true ∧
      b.length ≤ MAX_LEN ∧ validate_segments G rest tld.length 1 = .ok () := by
  unfold validate_nsid at h
  split at h
  · exact absurd h (by simp)
  next hlen =>
    split at h
    · exact absurd h (by simp)
    next tld rest heq =>
      split at h
      · exact absurd h (by simp)
      next htld =>
        exact ⟨tld, rest, heq, by simpa using htld, Nat.not_lt.mp hlen, h⟩

theorem all_intercalate (p : Nat → Bool) (x : Nat) (hx : p x = true) :
    ∀ ls : List (List Nat), (∀ l ∈ ls, l.all p = true) →
      (List.intercalate [x] ls).all p = true := by
  intro ls
  induction ls with
  | nil => intro; simp [List.intercalate]
  | cons a tl ih =>
    intro h
    cases tl with
    | nil => simpa [List.intercalate] using h a (by simp)
    | cons b t =>
      have heq : List.intercalate [x] (a :: b :: t) =
          a ++ [x] ++ List.intercalate [x] (b :: t) := by
        simp [List.intercalate, List.intersperse_cons_cons]
      rw [heq]
      simp only [List.all_append, Bool.and_eq_true]
      exact ⟨⟨h a (by simp), by simp [hx]⟩,
        ih fun l hl => h l (by simp [List.mem_cons] at hl ⊢; tauto)⟩

theorem utf8Valid_of_ascii :
    ∀ l : List Nat, l.all (fun b => b < 128) = true → utf8Valid l = true := by
  intro l
  induction l with
  | nil => intro; rfl
  | cons b r ih =>
    intro h
    simp only [List.all_cons, Bool.and_eq_true, decide_eq_true_eq] at h
    show utf8ValidAux (r.length + 1) (b :: r) = true
    rw [utf8ValidAux, if_pos h.1]
    exact ih (by simpa using h.2)

theorem validate_fragment_iff (b : List Nat) :
    validate_fragment b =
      if b.head? = some 35 ∧ SEGMENT_LEN_MIN ≤ b.length - 1 ∧
          b.length - 1 ≤ SEGMENT_LEN_MAX ∧ b.tail.all isAsciiAlnumByte = true
      then .ok () else .error .nsid_fragment := by
  cases b with
  | nil => simp [validate_fragment]
  | cons hd tl =>
    by_cases hhd : hd = 35
    · subst hhd
      simp only [validate_fragment, List.head?_cons, List.tail_cons,
        List.length_cons, Nat.add_sub_cancel]
      by_cases h1 : SEGMENT_LEN_MIN ≤ tl.length <;>
        by_cases h2 : tl.length ≤ SEGMENT_LEN_MAX <;>
        by_cases h3 : tl.all isAsciiAlnumByte = true <;>
        simp [h1, h2, h3]
    · have hl : validate_fragment (hd :: tl) = .error .nsid_fragment := by
        unfold validate_fragment
        split
        next rest heq =>
          rw [List.cons_eq_cons] at heq
          exact absurd heq.1 hhd
        next => rfl
      rw [hl, if_neg]
      simp only [List.head?_cons, Option.some_inj]
      intro hc
      exact hhd hc.1

theorem validate_fragment_ok_head (b : List Nat)
    (h : validate_fragment b = .ok ()) : b.head? = some 35 := by
  rw [validate_fragment_iff] at h
  split at h
  next hc => exact hc.1
  next => exact absurd h (by simp)

theorem full_reference_from_str_ok (G : SegmentGrammar) (s : List Nat)
    (r : FullReference) (h : FullReference.from_str G s = .ok r) :
    r.text = s ∧ r.frag_start = s.findIdx (fun b => b == 35) ∧
      validate_nsid G (s.take r.frag_start) = .ok () ∧
      (s.drop r.frag_start ≠ [] →
        validate_fragment (s.drop r.frag_start) = .ok ()) := by
  simp only [FullReference.from_str] at h
  split at h
  · exact absurd h (by simp)
  next u hval =>
    split at h
    next hemp =>
      rcases Except.ok.inj h with rfl
      refine ⟨rfl, rfl, ?_, ?_⟩
      · cases u; exact hval
      · intro hne; exact absurd (List.isEmpty_iff.mp hemp) hne
    · split at h
      · exact absurd h (by simp)
      next v hfrag =>
        rcases Except.ok.inj h with rfl
        exact ⟨rfl, rfl, by cases u; exact hval, fun _ => by cases v; exact hfrag⟩

theorem full_reference_from_str_ok_of (G : SegmentGrammar) (s : List Nat)
    (h1 : validate_nsid G (s.take (s.findIdx (fun b => b == 35))) = .ok ())
    (h2 : s.drop (s.findIdx (fun b => b == 35)) = [] ∨
      validate_fragment (s.drop (s.findIdx (fun b => b == 35))) = .ok ()) :
    FullReference.from_str G s =
      .ok (FullReference.mk s (s.findIdx (fun b => b == 35))) := by
  simp only [FullReference.from_str, h1]
  by_cases he : (s.drop (s.findIdx (fun b => b == 35))).isEmpty = true
  · rw [if_pos he]
  · rw [if_neg he]
    rcases h2 with h2 | h2
    · exact absurd (by simp [h2]) he
    · rw [h2]

theorem specGrammar_ascii : specGrammar.AsciiOnly := by
  have hbyte : ∀ b : Nat, (isAsciiAlnumByte b || b == 45) = true → b < 128 := by
    intro b hb
    simp only [isAsciiAlnumByte, Bool.or_eq_true, Bool.and_eq_true, beq_iff_eq,
      decide_eq_true_eq] at hb
    omega
  refine ⟨?_, ?_, ?_⟩ <;> intro s h <;>
    simp only [specGrammar, Bool.and_eq_true] at h <;>
    rw [List.all_eq_true] <;> intro x hx <;>
    simp only [decide_eq_true_eq]
  · exact hbyte x (List.all_eq_true.mp h.2 x hx)
  · exact hbyte x (List.all_eq_true.mp h.2 x hx)
  · exact hbyte x (by simp [List.all_eq_true.mp h.2 x hx])

/-- C1: for an otherwise-valid identifier (segments as split on `.`, a valid
TLD, valid interior segments, a valid final name segment, at least one
interior segment, total length within bound), `validate_nsid` accepts
exactly when the authority byte length — the TLD plus each interior segment
with its separator dot, excluding the dot before the final segment — is
strictly less than 253: exactly 252 is accepted, 253 or more is
rejected. -/
theorem c1_authority_length_boundary (G : SegmentGrammar) (b : List Nat)
    (tld lastSeg : List Nat) (mids : List (List Nat))
    (hsplit : b.splitOn 46 = tld :: (mids ++ [lastSeg]))
    (hlen : b.length ≤ MAX_LEN)
    (htld : G.is_valid_tld tld = true)
    (hmids : ∀ s ∈ mids, G.is_valid_domain_segment s = true)
    (hlast : G.is_valid_nsid_name lastSeg = true)
    (hmin : 1 ≤ mids.length) :
    validate_nsid G b =
      if tld.length + (mids.map fun s => 1 + s.length).sum < MAX_AUTHORITY_LEN
      then .ok () else .error .nsid := by
  have hB : ¬ (1 + mids.length + 1 < MIN_SEGMENTS) := by
    simp only [MIN_SEGMENTS]; omega
  simp only [validate_nsid, hsplit, htld, Bool.not_true, Bool.false_eq_true,
    if_false]
  rw [if_neg (by omega),
    validate_segments_last_spec G lastSeg hlast mids tld.length 1 hmids,
    if_neg hB]

set_option maxRecDepth 40000 in
theorem c1_witness :
    validate_nsid permissiveGrammar
        (List.replicate 250 97 ++ [46, 98, 46, 99]) = .ok () ∧
      validate_nsid permissiveGrammar
        (List.replicate 251 97 ++ [46, 98, 46, 99]) = .error .nsid := by
  constructor
  · exact (c1_authority_length_boundary permissiveGrammar _
      (List.replicate 250 97) [99] [[98]] (by decide) (by decide) (by decide)
      (by decide) (by decide) (by decide)).trans (by decide)
  · exact (c1_authority_length_boundary permissiveGrammar _
      (List.replicate 251 97) [99] [[98]] (by decide) (by decide) (by decide)
      (by decide) (by decide) (by decide)).trans (by decide)

set_option maxRecDepth 40000 in
/-- C2: every input longer than 317 bytes is rejected by `validate_nsid`
whatever the segment predicates are, and the 317-byte boundary itself is
not a cause of rejection: there are contract-conforming predicates and an
otherwise-valid identifier of exactly 317 bytes that is accepted. -/
theorem c2_total_length_boundary :
    (∀ (G : SegmentGrammar) (b : List Nat), 318 ≤ b.length →
      validate_nsid G b = .error .nsid) ∧
      (∃ (G : SegmentGrammar) (b : List Nat), G.RejectsEmpty ∧
        b.length = 317 ∧ validate_nsid G b = .ok ()) := by
  constructor
  · intro G b h
    unfold validate_nsid
    rw [if_pos (by simp only [MAX_LEN]; omega)]
  · refine ⟨permissiveGrammar,
      List.replicate 250 97 ++ [46, 98, 46] ++ List.replicate 64 99,
      ⟨rfl, rfl, rfl⟩, by simp, by decide⟩

set_option maxRecDepth 40000 in
theorem c2_witness :
    validate_nsid permissiveGrammar (List.replicate 318 97) = .error .nsid :=
  c2_total_length_boundary.1 permissiveGrammar (List.replicate 318 97)
    (by simp)

/-- C3: `validate_nsid` rejects every input whose split on `.` yields fewer
than 3 segments, whatever the segment predicates are; in particular
`"com.example"` (2 segments) and the empty string are rejected under the
spec-modelled predicates, while `"a.b.c"` (3 segments) is accepted. -/
theorem c3_min_segments :
    (∀ (G : SegmentGrammar) (b : List Nat), (b.splitOn 46).length < 3 →
      validate_nsid G b = .error .nsid) ∧
      validate_nsid specGrammar
        [99, 111, 109, 46, 101, 120, 97, 109, 112, 108, 101] = .error .nsid ∧
      validate_nsid specGrammar [] = .error .nsid ∧
      validate_nsid specGrammar [97, 46, 98, 46, 99] = .ok () := by
  refine ⟨?_, by decide, by decide, by decide⟩
  intro G b hlt
  rcases validate_nsid_ok_or_err G b with hok | herr
  · exfalso
    obtain ⟨tld, rest, hs, _, _, hseg⟩ := validate_nsid_ok_pieces G b hok
    have hc := validate_segments_ok_count G rest tld.length 1 hseg
    rw [hs] at hlt
    simp only [MIN_SEGMENTS] at hc
    simp only [List.length_cons] at hlt
    omega
  · exact herr

theorem c3_witness :
    validate_nsid specGrammar [99, 111, 109] = .error .nsid :=
  c3_min_segments.1 specGrammar [99, 111, 109] (by decide)

/-- C4: `validate_fragment` (hence `Fragment` construction) succeeds exactly
when the input starts with `#` and the remainder has length within
`SEGMENT_LEN_RANGE` and is entirely ASCII alphanumeric, every failure
producing the `NsidFragmentFormat` error kind; `"#fooBar1"` is accepted,
and a missing `#`, a `-`, `_` or space, and an empty name are rejected with
no value. -/
theorem c4_fragment_format :
    (∀ b : List Nat, validate_fragment b =
      if b.head? = some 35 ∧ SEGMENT_LEN_MIN ≤ b.length - 1 ∧
          b.length - 1 ≤ SEGMENT_LEN_MAX ∧ b.tail.all isAsciiAlnumByte = true
      then .ok () else .error .nsid_fragment) ∧
      Fragment.from_str [35, 102, 111, 111, 66, 97, 114, 49] =
        .ok (Fragment.mk [35, 102, 111, 111, 66, 97, 114, 49]) ∧
      Fragment.from_str [102, 111, 111, 66, 97, 114, 49] =
        .error .nsid_fragment ∧
      Fragment.from_str [35, 102, 111, 111, 45, 98, 97, 114] =
        .error .nsid_fragment ∧
      Fragment.from_str [35, 102, 111, 111, 95, 98, 97, 114] =
        .error .nsid_fragment ∧
      Fragment.from_str [35, 102, 111, 111, 32, 98, 97, 114] =
        .error .nsid_fragment ∧
      Fragment.from_str [35] = .error .nsid_fragment :=
  ⟨validate_fragment_iff, by decide, by decide, by decide, by decide,
    by decide, by decide⟩

/-- C5: `Reference` parsing dispatches solely on the first byte: an input
beginning with `#` is parsed whole under the Fragment rules and wrapped as
`Relative`, any other input is parsed whole under the FullReference rules
and wrapped as `Full`; `"#abc"` parses as `Relative` and
`"com.example.foo"` parses as `Full` with no fragment. -/
theorem c5_reference_dispatch :
    (∀ (G : SegmentGrammar) (s : List Nat), s.head? = some 35 →
      Reference.from_str G s = (Fragment.from_str s).map Reference.Relative) ∧
      (∀ (G : SegmentGrammar) (s : List Nat), s.head? ≠ some 35 →
        Reference.from_str G s =
          (FullReference.from_str G s).map Reference.Full) ∧
      Reference.from_str specGrammar [35, 97, 98, 99] =
        .ok (.Relative (Fragment.mk [35, 97, 98, 99])) ∧
      Reference.from_str specGrammar comExampleFoo =
        .ok (.Full (FullReference.mk comExampleFoo 15)) ∧
      (FullReference.mk comExampleFoo 15).has_fragment = false ∧
      (FullReference.mk comExampleFoo 15).clone_fragment = none := by
  refine ⟨?_, ?_, by decide, by decide, by decide, by decide⟩
  · intro G s hs
    cases s with
    | nil => exact absurd hs (by simp)
    | cons hd tl =>
      simp only [List.head?_cons, Option.some_inj] at hs
      subst hs
      rfl
  · intro G s hs
    unfold Reference.from_str
    split
    · exact absurd (by simp) hs
    · rfl

theorem c5_witness :
    Reference.from_str specGrammar [35, 120, 121] =
      (Fragment.from_str [35, 120, 121]).map Reference.Relative :=
  c5_reference_dispatch.1 specGrammar [35, 120, 121] (by decide)

/-- C6: round-trip rendering: every string that successfully parses into an
`Nsid`, `Fragment`, `FullReference` or `Reference` renders back (via the
`Display` impls / `as_str`) to exactly the original bytes. -/
theorem c6_round_trip :
    (∀ (G : SegmentGrammar) (s : List Nat) (n : Nsid),
      Nsid.from_str G s = .ok n → n.as_str = s) ∧
      (∀ (s : List Nat) (f : Fragment),
        Fragment.from_str s = .ok f → f.as_str = s) ∧
      (∀ (G : SegmentGrammar) (s : List Nat) (r : FullReference),
        FullReference.from_str G s = .ok r → r.display = s) ∧
      (∀ (G : SegmentGrammar) (s : List Nat) (r : Reference),
        Reference.from_str G s = .ok r → r.display = s) := by
  have hfull : ∀ (G : SegmentGrammar) (s : List Nat) (r : FullReference),
      FullReference.from_str G s = .ok r → r.display = s := by
    intro G s r h
    exact (full_reference_from_str_ok G s r h).1
  have hfrag : ∀ (s : List Nat) (f : Fragment),
      Fragment.from_str s = .ok f → f.as_str = s := by
    intro s f h
    simp only [Fragment.from_str] at h
    cases hv : validate_fragment s with
    | error e => rw [hv] at h; exact absurd h (by simp [Except.map])
    | ok u =>
      rw [hv] at h
      simp only [Except.map] at h
      rcases Except.ok.inj h with rfl
      rfl
  refine ⟨?_, hfrag, hfull, ?_⟩
  · intro G s n h
    simp only [Nsid.from_str] at h
    cases hv : validate_nsid G s with
    | error e => rw [hv] at h; exact absurd h (by simp [Except.map])
    | ok u =>
      rw [hv] at h
      simp only [Except.map] at h
      rcases Except.ok.inj h with rfl
      rfl
  · intro G s r h
    unfold Reference.from_str at h
    split at h
    next tl =>
      cases hv : Fragment.from_str (35 :: tl) with
      | error e => rw [hv] at h; exact absurd h (by simp [Except.map])
      | ok f =>
        rw [hv] at h
        simp only [Except.map] at h
        rcases Except.ok.inj h with rfl
        exact hfrag _ f hv
    · cases hv : FullReference.from_str G s with
      | error e => rw [hv] at h; exact absurd h (by simp [Except.map])
      | ok fr =>
        rw [hv] at h
        simp only [Except.map] at h
        rcases Except.ok.inj h with rfl
        exact hfull G s fr hv

theorem c6_witness :
    (Nsid.mk [97, 46, 98, 46, 99]).as_str = [97, 46, 98, 46, 99] :=
  c6_round_trip.1 specGrammar [97, 46, 98, 46, 99]
    (Nsid.mk [97, 46, 98, 46, 99]) (by decide)

/-- C7: `FullReference` parsing splits at the first `#` (or end-of-string),
succeeds exactly when the part before the split validates as an identifier
and the part from the split onward, when non-empty, validates as a
fragment, and the accessors return those pieces; for
`"com.example.foo#bar"`: `clone_nsid` displays `"com.example.foo"`,
`fragment_name` is `"bar"`, `clone_fragment` displays `"#bar"`; without a
`#`, `has_fragment` is false and `clone_fragment` / `fragment_name` are
absent. -/
theorem c7_full_reference_split :
    (∀ (G : SegmentGrammar) (s : List Nat) (r : FullReference),
      FullReference.from_str G s = .ok r →
        r.text = s ∧ r.frag_start = s.findIdx (fun b => b == 35) ∧
          validate_nsid G (s.take r.frag_start) = .ok () ∧
          (s.drop r.frag_start ≠ [] →
            validate_fragment (s.drop r.frag_start) = .ok ())) ∧
      (∀ (G : SegmentGrammar) (s : List Nat),
        validate_nsid G (s.take (s.findIdx (fun b => b == 35))) = .ok () →
        (s.drop (s.findIdx (fun b => b == 35)) = [] ∨
          validate_fragment (s.drop (s.findIdx (fun b => b == 35))) = .ok ()) →
        FullReference.from_str G s =
          .ok (FullReference.mk s (s.findIdx (fun b => b == 35)))) ∧
      FullReference.from_str specGrammar comExampleFooBar =
        .ok (FullReference.mk comExampleFooBar 15) ∧
      (FullReference.mk comExampleFooBar 15).clone_nsid.as_str =
        comExampleFoo ∧
      (FullReference.mk comExampleFooBar 15).fragment_name =
        some [98, 97, 114] ∧
      (FullReference.mk comExampleFooBar 15).clone_fragment =
        some (Fragment.mk [35, 98, 97, 114]) ∧
      FullReference.from_str specGrammar comExampleFoo =
        .ok (FullReference.mk comExampleFoo 15) ∧
      (FullReference.mk comExampleFoo 15).has_fragment = false ∧
      (FullReference.mk comExampleFoo 15).clone_fragment = none ∧
      (FullReference.mk comExampleFoo 15).fragment_name = none :=
  ⟨full_reference_from_str_ok, full_reference_from_str_ok_of, by decide,
    by decide, by decide, by decide, by decide, by decide, by decide,
    by decide⟩

theorem c7_witness :
    (FullReference.mk (comExampleFoo ++ [35, 122]) 15).text =
      comExampleFoo ++ [35, 122] ∧
      (FullReference.mk (comExampleFoo ++ [35, 122]) 15).frag_start =
        (comExampleFoo ++ [35, 122]).findIdx (fun b => b == 35) ∧
      validate_nsid specGrammar ((comExampleFoo ++ [35, 122]).take
        (FullReference.mk (comExampleFoo ++ [35, 122]) 15).frag_start) =
        .ok () ∧
      ((comExampleFoo ++ [35, 122]).drop
          (FullReference.mk (comExampleFoo ++ [35, 122]) 15).frag_start ≠ [] →
        validate_fragment ((comExampleFoo ++ [35, 122]).drop
          (FullReference.mk (comExampleFoo ++ [35, 122]) 15).frag_start) =
          .ok ()) :=
  c7_full_reference_split.1 specGrammar (comExampleFoo ++ [35, 122])
    (FullReference.mk (comExampleFoo ++ [35, 122]) 15) (by decide)

/-- C8: building a `FullReference` from an `Nsid` is loss-free: the split
offset equals the identifier text's byte length, no fragment is reported,
`clone_fragment` is absent, and `clone_nsid` returns an equal `Nsid`
(rendering to the same text). -/
theorem c8_from_nsid_lossless (n : Nsid) :
    (FullReference.fromNsid n).frag_start = n.text.length ∧
      (FullReference.fromNsid n).has_fragment = false ∧
      (FullReference.fromNsid n).clone_fragment = none ∧
      (FullReference.fromNsid n).clone_nsid = n ∧
      (FullReference.fromNsid n).display = n.as_str := by
  refine ⟨rfl, ?_, ?_, ?_, rfl⟩
  · simp [FullReference.fromNsid, FullReference.has_fragment]
  · simp [FullReference.clone_fragment, FullReference.has_fragment,
      FullReference.fromNsid]
  · cases n
    simp [FullReference.clone_nsid, FullReference.fromNsid]

/-- C9: invariant of every constructed `FullReference` (parsed from a
string or converted from a validated `Nsid`): `frag_start` is at most the
text length, the text before `frag_start` passes identifier validation,
the text from `frag_start` on, whenever `frag_start` is strictly inside
the text, passes fragment validation and begins with `#`, and
`frag_start = text.length` is the sole encoding of "no fragment". -/
theorem c9_invariant :
    (∀ (G : SegmentGrammar) (s : List Nat) (r : FullReference),
      FullReference.from_str G s = .ok r → r.WellFormed G) ∧
      (∀ (G : SegmentGrammar) (n : Nsid), validate_nsid G n.text = .ok () →
        (FullReference.fromNsid n).WellFormed G) := by
  constructor
  · intro G s r h
    obtain ⟨htext, hfs, hval, hfrag⟩ := full_reference_from_str_ok G s r h
    have hle : r.frag_start ≤ r.text.length := by
      rw [hfs, htext]
      exact List.findIdx_le_length _
    refine ⟨hle, by rw [htext]; exact hval, ?_, ?_⟩
    · intro hlt
      have hne : r.text.drop r.frag_start ≠ [] := by
        intro hnil
        have := congrArg List.length hnil
        simp only [List.length_drop, List.length_nil] at this
        omega
      have hok : validate_fragment (r.text.drop r.frag_start) = .ok () := by
        rw [htext]
        exact hfrag (by rw [htext] at hne; exact hne)
      exact ⟨hok, validate_fragment_ok_head _ hok⟩
    · simp only [FullReference.has_fragment, decide_eq_false_iff_not,
        Nat.not_lt]
      omega
  · intro G n hval
    refine ⟨Nat.le_refl _, ?_, ?_, ?_⟩
    · simpa [FullReference.fromNsid, List.take_length] using hval
    · intro hlt
      exact absurd hlt (by simp [FullReference.fromNsid])
    · simp [FullReference.fromNsid, FullReference.has_fragment]

theorem c9_witness :
    (FullReference.mk comExampleFooBar 15).WellFormed specGrammar :=
  c9_invariant.1 specGrammar comExampleFooBar
    (FullReference.mk comExampleFooBar 15) (by decide)

/-- C10: building an `Nsid` from a raw byte slice cannot panic: under the
external-predicate contract that accepted segments are all-ASCII, every
byte slice accepted by `validate_nsid` is valid UTF-8 (each byte is ASCII
or the `.` separator), so the `String::from_utf8(...).unwrap()` in the
`TryFrom<&[u8]>` impl cannot fail; and the byte-slice and string
construction paths agree on acceptance. -/
theorem c10_bytes_never_panic :
    (∀ (G : SegmentGrammar) (b : List Nat), G.AsciiOnly →
      validate_nsid G b = .ok () →
        b.all (fun x => x < 128) = true ∧ utf8Valid b = true) ∧
      (∀ (G : SegmentGrammar) (b : List Nat),
        Nsid.try_from G b = Nsid.from_str G b) := by
  constructor
  · intro G b hG hok
    obtain ⟨tld, rest, hs, htld, _, hseg⟩ := validate_nsid_ok_pieces G b hok
    have hall : ∀ l ∈ b.splitOn 46, l.all (fun x => x < 128) = true := by
      intro l hl
      rw [hs] at hl
      rcases List.mem_cons.mp hl with rfl | hl'
      · exact hG.1 _ htld
      · rcases validate_segments_ok_preds G rest tld.length 1 hseg l hl'
          with h | h
        · exact hG.2.1 _ h
        · exact hG.2.2 _ h
    have hb : b.all (fun x => x < 128) = true := by
      have hi := List.intercalate_splitOn b 46
      rw [← hi]
      exact all_intercalate _ 46 (by decide) _ hall
    exact ⟨hb, utf8Valid_of_ascii b hb⟩
  · intro G b
    rfl

theorem c10_witness :
    [97, 46, 98, 46, 99].all (fun x => x < 128) = true ∧
      utf8Valid [97, 46, 98, 46, 99] = true :=
  c10_bytes_never_panic.1 specGrammar [97, 46, 98, 46, 99] specGrammar_ascii
    (by decide)

end Neophron
